import Mathlib

/-! # protoc-gui: the logic of `main.go`

A shallow embedding of the non-widget logic of `main.go`:

* `options` (the global selection record), the directory scan of the
  "Select input directory" handler (`inputDirectorySelector`) and the
  writes to `options` made while `fileList` rebuilds the check boxes;
* `getLanguageArg`, the label-to-flag `switch`;
* `resizeStringWidth`, the width-wrapping loop;
* the "Generate" handler of `submitButton`, up to the point where the
  argument vector is handed to `exec.Command("protoc", command...)`.

Modelling conventions.

* A Go `string` is a finite sequence of bytes: `len` is the byte count,
  `s[:w]` and `s[w:]` slice by byte offsets, `+` is concatenation and `==`
  compares bytes.  `GoString` is therefore `List UInt8` and `lit` gives the
  UTF-8 bytes of a source literal.
* A Go `map[string]bool` is an association list.  The order of the list
  stands for the order in which a `for ... range` statement visits the
  entries; Go leaves that order unspecified, and every statement below
  is quantified over all lists, hence over all visiting orders.  Keys of
  a real map are distinct, which is recorded by `GoMap.WF`.
* A loop whose termination depends on its arguments is run with a fuel
  bound on its number of iterations, and a Go run-time panic is an
  explicit outcome (`Run`).
-/

namespace ProtocGui

/-! ## Go strings -/

/-- A Go `string`: a sequence of bytes. -/
abbrev GoString := List UInt8

/-- The bytes of a Go string literal (Go source text is UTF-8). -/
def lit (s : String) : GoString := s.toUTF8.data.toList

/-- Go standard library `strings.HasSuffix(s, suffix)`:
`len(s) >= len(suffix) && s[len(s)-len(suffix):] == suffix`. -/
def stringsHasSuffix (s suffix : GoString) : Bool :=
  decide (s.length ≥ suffix.length) && decide (s.drop (s.length - suffix.length) = suffix)

/-- Go standard library `strings.Join(elems, sep)`: the elements in order
with `sep` between each two neighbours; the empty string for no element. -/
def stringsJoin : List GoString → GoString → GoString
  | [], _ => []
  | [a], _ => a
  | a :: b :: rest, sep => a ++ sep ++ stringsJoin (b :: rest) sep

/-- The slice expression `s[:hi]`, which panics (`none`) unless
`0 <= hi <= len(s)`. -/
def sliceTo (s : GoString) (hi : Int) : Option GoString :=
  if 0 ≤ hi ∧ hi ≤ (s.length : Int) then some (s.take hi.toNat) else none

/-- The slice expression `s[lo:]`, which panics (`none`) unless
`0 <= lo <= len(s)`. -/
def sliceFrom (s : GoString) (lo : Int) : Option GoString :=
  if 0 ≤ lo ∧ lo ≤ (s.length : Int) then some (s.drop lo.toNat) else none

/-! ## Go maps -/

/-- A Go `map[string]bool`, as the list of its entries in visiting order. -/
abbrev GoMap := List (GoString × Bool)

/-- The lookup `m[k]` with presence (`v, ok := m[k]`). -/
def GoMap.get? : GoMap → GoString → Option Bool
  | [], _ => none
  | (k0, v0) :: rest, k => if k0 = k then some v0 else GoMap.get? rest k

/-- The assignment `m[k] = v`: overwrite the entry of `k`, or add one. -/
def GoMap.set : GoMap → GoString → Bool → GoMap
  | [], k, v => [(k, v)]
  | (k0, v0) :: rest, k, v =>
    if k0 = k then (k, v) :: rest else (k0, v0) :: GoMap.set rest k v

/-- Keys of a map are pairwise distinct. -/
def GoMap.WF (m : GoMap) : Prop := (m.map Prod.fst).Nodup

instance (m : GoMap) : Decidable m.WF := inferInstanceAs (Decidable (m.map Prod.fst).Nodup)

/-! ## The selection state (`var options struct`, lines 18-23) -/

/-- The global `options` record. -/
structure Options where
  inputDir : GoString
  inputFiles : GoMap
  outputDir : GoString
  outputLang : GoString
deriving DecidableEq

/-- The state at program start: Go zero values, and the empty map made in
`main` (line 240). -/
def initialOptions : Options := Options.mk [] [] [] []

/-! ## The input-directory handler (lines 52-74) -/

/-- What the handler reads of an `os.DirEntry`: `Name()` and `IsDir()`. -/
structure DirEntry where
  name : GoString
  isDir : Bool
deriving DecidableEq

/-- The loop of lines 64-68 over the entries returned by `os.ReadDir`. -/
def scanFiles (files : List DirEntry) (inputFiles : GoMap) : GoMap :=
  files.foldl
    (fun m f =>
      if !f.isDir && stringsHasSuffix f.name (lit ".proto") then m.set f.name true else m)
    inputFiles

/-- The function `fileList` (lines 25-38), as far as it changes `options`.
For every key the `range` of line 28 visits, a check box is made with the
callback of lines 29-31 and `cb.SetChecked(true)` is called on it (line 32).
A new fyne check box is unchecked, so `SetChecked(true)` changes its state
and calls the callback with `true`, which assigns
`options.inputFiles[fileName] = true`. The assignments only overwrite keys
that exist, so the `range` visits every entry once. -/
def fileList (inputFiles : GoMap) : GoMap :=
  inputFiles.foldl (fun m entry => m.set entry.1 true) inputFiles

/-- The state change of the "Select input directory" handler, given the
directory the dialog returned and the entries `os.ReadDir` returned for it
(lines 59-73): the scan loop, the assignment of `options.inputDir`, and the
call of `fileList` at line 73. -/
def inputDirectorySelector (options : Options) (directory : GoString)
    (files : List DirEntry) : Options :=
  let inputFiles := scanFiles files options.inputFiles
  let inputFiles := fileList inputFiles
  Options.mk directory inputFiles options.outputDir options.outputLang

/-! ## Output language (lines 110, 133-156) -/

/-- The labels offered by the language drop-down (line 110). -/
def languageLabels : List GoString :=
  [lit "C++", lit "C#", lit "Java", lit "JavaScript", lit "Objective C", lit "PHP",
    lit "Python", lit "Ruby", lit "Golang"]

/-- The `switch options.outputLang` of lines 133-156: cases are tried from
the top, the first equal one returns. -/
def getLanguageArg (options : Options) : GoString :=
  if options.outputLang = lit "C++" then lit "--cpp_out"
  else if options.outputLang = lit "C#" then lit "--csharp_out"
  else if options.outputLang = lit "Java" then lit "--java_out"
  else if options.outputLang = lit "JavaScript" then lit "--js_out"
  else if options.outputLang = lit "Objective C" then lit "--objc_out"
  else if options.outputLang = lit "PHP" then lit "--php_out"
  else if options.outputLang = lit "Python" then lit "--python_out"
  else if options.outputLang = lit "Ruby" then lit "--ruby_out"
  else if options.outputLang = lit "Golang" then lit "--go_out"
  else lit ""

/-! ## `resizeStringWidth` (lines 158-168) -/

/-- How a run of Go code ends: with a value, with a run-time panic, or
still running when the iteration bound is used up. -/
inductive Run (α : Type) where
  | value (a : α)
  | panic
  | outOfFuel
deriving DecidableEq

/-- The loop `for len(s) > w` of lines 161-165, started with the current
`s` and `lines`; `fuel` bounds the number of iterations. The result is the
slice `lines` when the loop is left. -/
def resizeLoop : Nat → GoString → Int → List GoString → Run (List GoString)
  | fuel, s, w, lines =>
    if (s.length : Int) > w then
      match fuel with
      | 0 => Run.outOfFuel
      | fuel + 1 =>
        match sliceTo s w, sliceFrom s w with
        | some subS, some rest => resizeLoop fuel rest w (lines ++ [subS])
        | _, _ => Run.panic
    else Run.value lines

/-- The slice `lines` that line 167 joins: the loop run from `lines := []`. -/
def resizeLines (fuel : Nat) (s : GoString) (w : Int) : Run (List GoString) :=
  resizeLoop fuel s w []

/-- The function `resizeStringWidth(s, w)`. -/
def resizeStringWidth (fuel : Nat) (s : GoString) (w : Int) : Run GoString :=
  match resizeLines fuel s w with
  | Run.value lines => Run.value (stringsJoin lines (lit "\n"))
  | Run.panic => Run.panic
  | Run.outOfFuel => Run.outOfFuel

/-! ## The "Generate" handler (lines 173-230) -/

/-- The absolute path of line 195: `options.inputDir + "/" + file`. -/
def absPath (options : Options) (file : GoString) : GoString :=
  options.inputDir ++ lit "/" ++ file

/-- The four checks of lines 174-186, accumulating `errorText`. -/
def selectionErrors (options : Options) : GoString :=
  let errorText : GoString := lit ""
  let errorText :=
    if options.inputDir = lit "" then errorText ++ lit "[ERROR] Input directory not selected\n"
    else errorText
  let errorText :=
    if options.inputFiles.length = 0 then
      errorText ++ lit "[ERROR] Select at least 1 input file\n"
    else errorText
  let errorText :=
    if options.outputDir = lit "" then
      errorText ++ lit "[ERROR] Output directory not selected\n"
    else errorText
  let errorText :=
    if options.outputLang = lit "" then errorText ++ lit "[ERROR] Output language not selected"
    else errorText
  errorText

/-- The loop of lines 188-198 over the map: the pair `(command,
filesSelected)` after all entries were visited. `filesSelected` counts map
entries, so the Go `int` cannot overflow. -/
def collectSelected (options : Options) : List GoString × Nat :=
  options.inputFiles.foldl
    (fun acc entry =>
      if entry.2 then (acc.1 ++ [absPath options entry.1], acc.2 + 1) else acc)
    ([], 0)

/-- How the handler ends: it returns at line 206 with `errorText` put on the
label, or it reaches line 215 and runs `protoc` with `command`. -/
inductive Outcome where
  | rejected (errorText : GoString)
  | invoked (command : List GoString)
deriving DecidableEq

/-- The "Generate" handler, lines 174-215. -/
def submitButton (options : Options) : Outcome :=
  let errorText := selectionErrors options
  let (command, filesSelected) := collectSelected options
  let errorText :=
    if filesSelected < 1 then errorText ++ lit "[ERROR] Select at least 1 input file\n"
    else errorText
  if errorText ≠ lit "" then Outcome.rejected errorText
  else
    let command := command ++ [lit "--proto_path", options.inputDir]
    let command := command ++ [getLanguageArg options, options.outputDir]
    Outcome.invoked command

/-- The label text of line 229, from what `protoc` wrote to standard error
and standard output: `resizeStringWidth(stderr, 600) + "\n" + out`. -/
def resultLabel (fuel : Nat) (stderr out : GoString) : Run GoString :=
  match resizeStringWidth fuel stderr 600 with
  | Run.value wrapped => Run.value (wrapped ++ lit "\n" ++ out)
  | Run.panic => Run.panic
  | Run.outOfFuel => Run.outOfFuel

/-! ## Vocabulary of the statements -/

/-- The lines of a text: the maximal runs of bytes other than `\n`. -/
def textLines : GoString → List GoString
  | [] => [[]]
  | c :: rest =>
    if c = 10 then [] :: textLines rest
    else
      match textLines rest with
      | [] => [[c]]
      | l :: ls => (c :: l) :: ls

/-- The four validation messages, without line ends. -/
def errorMessages : List GoString :=
  [lit "[ERROR] Input directory not selected", lit "[ERROR] Select at least 1 input file",
    lit "[ERROR] Output directory not selected", lit "[ERROR] Output language not selected"]

/-- The flags `protoc` is given for the nine labels. -/
def languageFlags : List GoString :=
  [lit "--cpp_out", lit "--csharp_out", lit "--java_out", lit "--js_out", lit "--objc_out",
    lit "--php_out", lit "--python_out", lit "--ruby_out", lit "--go_out"]

/-- The `i`-th `W`-byte window of `s`, the bytes `s[i*W : (i+1)*W]` (cut at
the end of `s`). -/
def chunkAt (s : GoString) (W i : Nat) : GoString := (s.drop (i * W)).take W

/-- The first `n` windows of `s`, in order. -/
def firstChunks (s : GoString) (W n : Nat) : List GoString :=
  (List.range n).map (chunkAt s W)

/-- The number `ceil(len(s)/W) - 1` for non-empty `s`, and `0` for empty `s`. -/
def wrapCount (s : GoString) (W : Nat) : Nat :=
  if s = [] then 0 else (s.length + W - 1) / W - 1

end ProtocGui

namespace ProtocGui

/-! ### The language flag -/

theorem lit_empty : lit "" = [] := by decide

/-- C2: `getLanguageArg` returns `--cpp_out`, `--csharp_out`, `--java_out`,
`--js_out`, `--objc_out`, `--php_out`, `--python_out`, `--ruby_out`, `--go_out`
for the labels `C++`, `C#`, `Java`, `JavaScript`, `Objective C`, `PHP`,
`Python`, `Ruby`, `Golang`, and the empty string for every other label, the
empty one included; so its result is non-empty exactly for the nine labels. -/
theorem getLanguageArg_total (options : Options) :
    (options.outputLang = lit "C++" → getLanguageArg options = lit "--cpp_out") ∧
    (options.outputLang = lit "C#" → getLanguageArg options = lit "--csharp_out") ∧
    (options.outputLang = lit "Java" → getLanguageArg options = lit "--java_out") ∧
    (options.outputLang = lit "JavaScript" → getLanguageArg options = lit "--js_out") ∧
    (options.outputLang = lit "Objective C" → getLanguageArg options = lit "--objc_out") ∧
    (options.outputLang = lit "PHP" → getLanguageArg options = lit "--php_out") ∧
    (options.outputLang = lit "Python" → getLanguageArg options = lit "--python_out") ∧
    (options.outputLang = lit "Ruby" → getLanguageArg options = lit "--ruby_out") ∧
    (options.outputLang = lit "Golang" → getLanguageArg options = lit "--go_out") ∧
    (options.outputLang ∉ languageLabels → getLanguageArg options = lit "") ∧
    (getLanguageArg options ≠ lit "" ↔ options.outputLang ∈ languageLabels) := by
  unfold getLanguageArg
  generalize options.outputLang = l
  split_ifs with h1 h2 h3 h4 h5 h6 h7 h8 h9
  · subst h1; decide
  · subst h2; decide
  · subst h3; decide
  · subst h4; decide
  · subst h5; decide
  · subst h6; decide
  · subst h7; decide
  · subst h8; decide
  · subst h9; decide
  · simp [languageLabels, h1, h2, h3, h4, h5, h6, h7, h8, h9]

theorem getLanguageArg_total_witness :
    getLanguageArg (Options.mk (lit "/a") [] (lit "/b") (lit "Rust")) = lit "" ∧
      getLanguageArg (Options.mk (lit "/a") [] (lit "/b") (lit "")) = lit "" ∧
      getLanguageArg (Options.mk (lit "/a") [] (lit "/b") (lit "Golang")) = lit "--go_out" :=
  ⟨(getLanguageArg_total _).2.2.2.2.2.2.2.2.2.1 (by decide),
    (getLanguageArg_total _).2.2.2.2.2.2.2.2.2.1 (by decide),
    (getLanguageArg_total _).2.2.2.2.2.2.2.2.1 rfl⟩

/-! ### The wrapping loop -/

theorem firstChunks_succ (s : GoString) (W n : Nat) :
    firstChunks s W (n + 1) = s.take W :: firstChunks (s.drop W) W n := by
  unfold firstChunks
  rw [List.range_succ_eq_map, List.map_cons, List.map_map]
  congr 1
  · simp [chunkAt]
  · apply List.map_congr_left
    intro i _
    simp only [chunkAt, Function.comp, List.drop_drop]
    congr 2
    rw [Nat.succ_mul]; omega

theorem div_step (L W : Nat) (hW : 1 ≤ W) (h : W < L) :
    (L - 1) / W = (L - W - 1) / W + 1 := by
  have : L - 1 = (L - W - 1) + W := by omega
  rw [this, Nat.add_div_right _ (by omega)]

theorem resizeLoop_eq (W : Nat) (hW : 1 ≤ W) :
    ∀ (fuel : Nat) (s : GoString) (lines : List GoString),
      (s.length - 1) / W ≤ fuel →
      resizeLoop fuel s (W : Int) lines
        = Run.value (lines ++ firstChunks s W ((s.length - 1) / W)) := by
  intro fuel
  induction fuel with
  | zero =>
    intro s lines hf
    have hle : ¬ ((s.length : Int) > (W : Int)) := by
      intro hgt
      have hgt2 : W < s.length := by exact_mod_cast hgt
      rw [div_step s.length W hW hgt2] at hf
      exact absurd hf (by simp)
    have h0 : (s.length - 1) / W = 0 := Nat.le_zero.mp hf
    rw [resizeLoop, if_neg hle, h0]
    simp [firstChunks]
  | succ fuel ih =>
    intro s lines hf
    by_cases hgt : (s.length : Int) > (W : Int)
    · have hgt2 : W < s.length := by exact_mod_cast hgt
      have hd := div_step s.length W hW hgt2
      have h1 : sliceTo s (W : Int) = some (s.take W) := by
        simp [sliceTo]; omega
      have h2 : sliceFrom s (W : Int) = some (s.drop W) := by
        simp [sliceFrom]; omega
      rw [resizeLoop, if_pos hgt]
      simp only [h1, h2]
      rw [ih (s.drop W) (lines ++ [s.take W]) (by rw [List.length_drop]; omega)]
      rw [hd, firstChunks_succ, List.length_drop]
      simp
    · have hle : s.length ≤ W := by
        have : (s.length : Int) ≤ (W : Int) := by omega
        exact_mod_cast this
      have h0 : (s.length - 1) / W = 0 := by
        apply Nat.div_eq_of_lt; omega
      rw [resizeLoop, if_neg hgt, h0]
      simp [firstChunks]


theorem wrapCount_eq (s : GoString) (W : Nat) (hW : 1 ≤ W) :
    wrapCount s W = (s.length - 1) / W := by
  unfold wrapCount
  split_ifs with h
  · subst h; simp
  · have hpos : 1 ≤ s.length := by
      cases s with
      | nil => exact absurd rfl h
      | cons a t => simp
    have : s.length + W - 1 = (s.length - 1) + W := by omega
    rw [this, Nat.add_div_right _ (by omega)]
    exact Nat.add_sub_cancel _ _

theorem wrapCount_bounds (s : GoString) (W : Nat) (hW : 1 ≤ W) (hs : s ≠ []) :
    wrapCount s W * W < s.length ∧ s.length ≤ wrapCount s W * W + W := by
  have hpos : 1 ≤ s.length := by
    cases s with
    | nil => exact absurd rfl hs
    | cons a t => simp
  rw [wrapCount_eq s W hW]
  have h1 := Nat.div_add_mod (s.length - 1) W
  have h2 := Nat.mod_lt (s.length - 1) (show W > 0 by omega)
  rw [Nat.mul_comm] at h1
  constructor <;> omega

theorem firstChunks_join (W : Nat) :
    ∀ (n : Nat) (s : GoString), (firstChunks s W n).flatten = s.take (n * W) := by
  intro n
  induction n with
  | zero => intro s; simp [firstChunks]
  | succ n ih =>
    intro s
    rw [firstChunks_succ, List.flatten_cons, ih, Nat.succ_mul, Nat.add_comm (n * W) W,
      List.take_add]

theorem chunkAt_length (s : GoString) (W i : Nat) (h : (i + 1) * W ≤ s.length) :
    (chunkAt s W i).length = W := by
  unfold chunkAt
  rw [List.length_take, List.length_drop]
  rw [Nat.succ_mul] at h
  omega

theorem resizeLines_eq (s : GoString) (w : Int) (fuel : Nat) (hw : 1 ≤ w)
    (hfuel : wrapCount s w.toNat ≤ fuel) :
    resizeLines fuel s w = Run.value (firstChunks s w.toNat (wrapCount s w.toNat)) := by
  have hW : 1 ≤ w.toNat := by omega
  have hcast : ((w.toNat : Nat) : Int) = w := Int.toNat_of_nonneg (by omega)
  rw [wrapCount_eq s _ hW] at hfuel ⊢
  have := resizeLoop_eq w.toNat hW fuel s [] hfuel
  rw [hcast] at this
  simpa [resizeLines] using this

/-- C7: for every string `s`, width `w >= 1` and enough iterations, the loop
of `resizeStringWidth` leaves the slice `lines` made of the `wrapCount s w`
windows of `s` at the byte offsets `0, w, 2w, ...`, in that order and whatever
the bytes are: its `i`-th element is `s[i*w : i*w+w]`, and every element has
length at most `w`. -/
theorem resizeLines_chunks (s : GoString) (w : Int) (fuel : Nat) (hw : 1 ≤ w)
    (hfuel : wrapCount s w.toNat ≤ fuel) :
    ∃ lines : List GoString, resizeLines fuel s w = Run.value lines ∧
      lines
        = (List.range (wrapCount s w.toNat)).map
            (fun i => (s.drop (i * w.toNat)).take w.toNat) ∧
      lines.length = wrapCount s w.toNat ∧
      ∀ (i : Nat) (hi : i < lines.length),
        lines.get ⟨i, hi⟩ = (s.drop (i * w.toNat)).take w.toNat ∧
        ((lines.get ⟨i, hi⟩).length : Int) ≤ w := by
  refine ⟨_, resizeLines_eq s w fuel hw hfuel, rfl, by simp [firstChunks], ?_⟩
  intro i hi
  have hget : (firstChunks s w.toNat (wrapCount s w.toNat)).get ⟨i, hi⟩
      = (s.drop (i * w.toNat)).take w.toNat := by
    simp [firstChunks, chunkAt]
  rw [hget]
  refine ⟨rfl, ?_⟩
  have : ((s.drop (i * w.toNat)).take w.toNat).length ≤ w.toNat := by
    rw [List.length_take]; exact Nat.min_le_left _ _
  omega

theorem resizeLines_chunks_witness :
    resizeLines 3 (lit "hello world") 3
      = Run.value [lit "hel", lit "lo ", lit "wor"] := by
  obtain ⟨lines, hrun, hlines, _⟩ :=
    resizeLines_chunks (lit "hello world") 3 3 (by decide) (by decide)
  rw [hrun, hlines]
  decide

/-- C10: for every string `s` and width `w >= 1` the loop of
`resizeStringWidth` ends after `n` iterations, `n = ceil(len(s)/w) - 1` for
non-empty `s` and `n = 0` for empty `s`, and the result is the newline-join of
the first `n` windows `s[0:w], ..., s[(n-1)w:nw]`, each of exactly `w` bytes
and together the first `n*w` bytes of `s`; the last `1..w` bytes of a
non-empty `s` are left out, so the result is empty whenever `len(s) <= w`. -/
theorem resizeStringWidth_result (s : GoString) (w : Int) (fuel : Nat) (hw : 1 ≤ w)
    (hfuel : wrapCount s w.toNat ≤ fuel) :
    resizeStringWidth fuel s w
        = Run.value (stringsJoin (firstChunks s w.toNat (wrapCount s w.toNat)) (lit "\n")) ∧
      (∀ i, i < wrapCount s w.toNat →
        ((s.drop (i * w.toNat)).take w.toNat).length = w.toNat) ∧
      (firstChunks s w.toNat (wrapCount s w.toNat)).flatten
        = s.take (wrapCount s w.toNat * w.toNat) ∧
      (s ≠ [] → wrapCount s w.toNat * w.toNat < s.length ∧
        s.length ≤ wrapCount s w.toNat * w.toNat + w.toNat) ∧
      ((s.length : Int) ≤ w → resizeStringWidth fuel s w = Run.value (lit "")) := by
  have hW : 1 ≤ w.toNat := by omega
  have hres : resizeStringWidth fuel s w
      = Run.value (stringsJoin (firstChunks s w.toNat (wrapCount s w.toNat)) (lit "\n")) := by
    unfold resizeStringWidth
    rw [resizeLines_eq s w fuel hw hfuel]
  refine ⟨hres, ?_, firstChunks_join _ _ _, wrapCount_bounds s _ hW, ?_⟩
  · intro i hi
    by_cases hs : s = []
    · subst hs; simp [wrapCount] at hi
    · have hb := (wrapCount_bounds s _ hW hs).1
      have hmul : (i + 1) * w.toNat ≤ wrapCount s w.toNat * w.toNat :=
        Nat.mul_le_mul_right _ hi
      exact chunkAt_length s w.toNat i (by omega)
  · intro hle
    have hlen : s.length ≤ w.toNat := by omega
    have h0 : wrapCount s w.toNat = 0 := by
      rw [wrapCount_eq s _ hW]
      apply Nat.div_eq_of_lt; omega
    rw [hres, h0]
    rfl

theorem resizeStringWidth_result_witness :
    resizeStringWidth 2 (lit "hello") 2 = Run.value (lit "he\nll") := by
  have h := (resizeStringWidth_result (lit "hello") 2 2 (by decide) (by decide)).1
  rw [h]
  decide


/-! ### Maps and the directory scan -/

theorem GoMap.get?_set (m : GoMap) (k : GoString) (v : Bool) (k1 : GoString) :
    (m.set k v).get? k1 = if k = k1 then some v else m.get? k1 := by
  induction m with
  | nil => simp [GoMap.set, GoMap.get?]
  | cons e rest ih =>
    obtain ⟨k0, v0⟩ := e
    by_cases h0 : k0 = k
    · subst h0
      by_cases h1 : k0 = k1 <;> simp [GoMap.set, GoMap.get?, h1]
    · by_cases h1 : k0 = k1
      · subst h1
        have : ¬ k = k0 := fun h => h0 h.symm
        simp [GoMap.set, GoMap.get?, h0, this]
      · simp [GoMap.set, GoMap.get?, h0, h1, ih]

theorem GoMap.mem_of_get? (m : GoMap) (k : GoString) (v : Bool) (h : m.get? k = some v) :
    (k, v) ∈ m := by
  induction m with
  | nil => simp [GoMap.get?] at h
  | cons e rest ih =>
    obtain ⟨k0, v0⟩ := e
    by_cases h0 : k0 = k
    · subst h0
      simp [GoMap.get?] at h
      simp [h]
    · simp [GoMap.get?, h0] at h
      exact List.mem_cons_of_mem _ (ih h)

theorem GoMap.get?_of_mem (m : GoMap) (hwf : m.WF) (k : GoString) (v : Bool)
    (h : (k, v) ∈ m) : m.get? k = some v := by
  induction m with
  | nil => simp at h
  | cons e rest ih =>
    obtain ⟨k0, v0⟩ := e
    have hnd : k0 ∉ rest.map Prod.fst ∧ (rest.map Prod.fst).Nodup := by
      simpa [GoMap.WF] using hwf
    rcases List.mem_cons.mp h with heq | hin
    · cases heq
      simp [GoMap.get?]
    · have hne : k0 ≠ k := by
        intro hk
        subst hk
        exact hnd.1 (List.mem_map_of_mem Prod.fst hin)
      simp only [GoMap.get?, if_neg hne]
      exact ih hnd.2 hin

theorem GoMap.set_keys (m : GoMap) (k : GoString) (v : Bool) :
    (m.set k v).map Prod.fst
      = if k ∈ m.map Prod.fst then m.map Prod.fst else m.map Prod.fst ++ [k] := by
  induction m with
  | nil => simp [GoMap.set]
  | cons e rest ih =>
    obtain ⟨k0, v0⟩ := e
    by_cases h0 : k0 = k
    · subst h0; simp [GoMap.set]
    · have h1 : ¬ k = k0 := fun h => h0 h.symm
      simp only [GoMap.set, if_neg h0, List.map_cons, ih, List.mem_cons, h1, false_or]
      split_ifs <;> simp

theorem GoMap.set_WF (m : GoMap) (hwf : m.WF) (k : GoString) (v : Bool) : (m.set k v).WF := by
  unfold GoMap.WF at hwf ⊢
  rw [GoMap.set_keys]
  split_ifs with h
  · exact hwf
  · rw [List.nodup_append]
    refine ⟨hwf, List.nodup_singleton k, ?_⟩
    intro a ha hb
    simp only [List.mem_singleton] at hb
    subst hb
    exact h ha

theorem stringsHasSuffix_iff (s suffix : GoString) :
    stringsHasSuffix s suffix = true ↔ suffix <:+ s := by
  unfold stringsHasSuffix
  simp only [Bool.and_eq_true, decide_eq_true_eq, ge_iff_le]
  constructor
  · rintro ⟨_, h⟩
    have hsplit := List.take_append_drop (s.length - suffix.length) s
    rw [h] at hsplit
    exact ⟨_, hsplit⟩
  · intro h
    refine ⟨h.length_le, ?_⟩
    obtain ⟨t, rfl⟩ := h
    simp

theorem scanFiles_cons (f : DirEntry) (files : List DirEntry) (m : GoMap) :
    scanFiles (f :: files) m
      = scanFiles files
          (if !f.isDir && stringsHasSuffix f.name (lit ".proto") then m.set f.name true
            else m) := by
  simp [scanFiles]

theorem scanFiles_keep_true (files : List DirEntry) :
    ∀ (m : GoMap) (k : GoString), m.get? k = some true →
      (scanFiles files m).get? k = some true := by
  induction files with
  | nil => intro m k h; simpa [scanFiles] using h
  | cons f files ih =>
    intro m k h
    rw [scanFiles_cons]
    apply ih
    split_ifs
    · rw [GoMap.get?_set]; split_ifs <;> simp [h]
    · exact h

theorem scanFiles_WF (files : List DirEntry) :
    ∀ (m : GoMap), m.WF → (scanFiles files m).WF := by
  induction files with
  | nil => intro m h; simpa [scanFiles] using h
  | cons f files ih =>
    intro m h
    rw [scanFiles_cons]
    apply ih
    split_ifs
    · exact GoMap.set_WF m h _ _
    · exact h

theorem scanFiles_scanned (files : List DirEntry) :
    ∀ (m : GoMap), ∀ f ∈ files, f.isDir = false → lit ".proto" <:+ f.name →
      (scanFiles files m).get? f.name = some true := by
  induction files with
  | nil => intro m f hf; simp at hf
  | cons g fs ih =>
    intro m f hf hdir hsuf
    rw [scanFiles_cons]
    rcases List.mem_cons.mp hf with heq | hin
    · subst heq
      apply scanFiles_keep_true
      have hs := (stringsHasSuffix_iff f.name (lit ".proto")).mpr hsuf
      simp [hdir, hs, GoMap.get?_set]
    · exact ih _ f hin hdir hsuf

theorem scanFiles_other (files : List DirEntry) :
    ∀ (m : GoMap) (k : GoString),
      (¬ ∃ f ∈ files, f.name = k ∧ f.isDir = false ∧ lit ".proto" <:+ f.name) →
      (scanFiles files m).get? k = m.get? k := by
  induction files with
  | nil => intro m k _; simp [scanFiles]
  | cons g fs ih =>
    intro m k hno
    rw [scanFiles_cons]
    have hrest : ¬ ∃ f ∈ fs, f.name = k ∧ f.isDir = false ∧ lit ".proto" <:+ f.name := by
      rintro ⟨f, hf, h⟩
      exact hno ⟨f, List.mem_cons_of_mem _ hf, h⟩
    rw [ih _ k hrest]
    split_ifs with hc
    · have hne : ¬ g.name = k := by
        intro hk
        apply hno
        simp only [Bool.and_eq_true, Bool.not_eq_true', stringsHasSuffix_iff] at hc
        exact ⟨g, List.mem_cons_self _ _, hk, hc.1, hc.2⟩
      rw [GoMap.get?_set, if_neg hne]
    · rfl

theorem GoMap.get?_eq_none_iff (m : GoMap) (k : GoString) :
    m.get? k = none ↔ k ∉ m.map Prod.fst := by
  induction m with
  | nil => simp [GoMap.get?]
  | cons e rest ih =>
    obtain ⟨k0, v0⟩ := e
    by_cases h0 : k0 = k
    · subst h0; simp [GoMap.get?]
    · have h1 : ¬ k = k0 := fun h => h0 h.symm
      simp [GoMap.get?, h0, h1, ih]

theorem setAll_get? (l : List (GoString × Bool)) :
    ∀ (m : GoMap) (k : GoString),
      (l.foldl (fun m entry => m.set entry.1 true) m).get? k
        = if k ∈ l.map Prod.fst then some true else m.get? k := by
  induction l with
  | nil => intro m k; simp
  | cons e rest ih =>
    intro m k
    rw [List.foldl_cons, ih, GoMap.get?_set]
    by_cases h1 : k ∈ rest.map Prod.fst
    · simp [h1]
    · by_cases h2 : e.1 = k
      · subst h2; simp
      · have h3 : ¬ k = e.1 := fun h => h2 h.symm
        have h4 : ¬ k ∈ (e :: rest).map Prod.fst := by
          rw [List.map_cons, List.mem_cons]
          rintro (h | h)
          · exact h3 h
          · exact h1 h
        rw [if_neg h1, if_neg h2, if_neg h4]

/-- After `fileList` every key is still there and every flag is `true`. -/
theorem fileList_get? (m : GoMap) (k : GoString) :
    (fileList m).get? k = if m.get? k = none then none else some true := by
  unfold fileList
  rw [setAll_get?]
  by_cases h : k ∈ m.map Prod.fst
  · have hne : ¬ m.get? k = none := fun hn => ((GoMap.get?_eq_none_iff m k).mp hn) h
    rw [if_pos h, if_neg hne]
  · have hn := (GoMap.get?_eq_none_iff m k).mpr h
    rw [if_neg h, if_pos hn, hn]

/-- C9, as the code has it: after the input-directory handler every scanned
entry that is not a directory and whose name ends in `.proto` is a key with
value `true`; the keys are exactly the keys present before together with those
names, so no key is removed and no other key is added; and every key, an old
one included, has the flag `true`, because the check-box list rebuilt at line
73 assigns `true` to each key. The scan loop of lines 64-68 on its own leaves
the entry of every name it did not register as it was. Scanning `a.proto`,
`b.proto`, `notes.txt` from the empty map gives `a.proto: true`,
`b.proto: true`. -/
theorem inputDirectorySelector_scan (options : Options) (directory : GoString)
    (files : List DirEntry) :
    (∀ f ∈ files, f.isDir = false → lit ".proto" <:+ f.name →
      (inputDirectorySelector options directory files).inputFiles.get? f.name = some true) ∧
    (∀ k : GoString,
      (inputDirectorySelector options directory files).inputFiles.get? k ≠ none ↔
        (options.inputFiles.get? k ≠ none ∨
          ∃ f ∈ files, f.name = k ∧ f.isDir = false ∧ lit ".proto" <:+ f.name)) ∧
    (∀ (k : GoString) (v : Bool),
      (inputDirectorySelector options directory files).inputFiles.get? k = some v →
        v = true) ∧
    (∀ k : GoString,
      (¬ ∃ f ∈ files, f.name = k ∧ f.isDir = false ∧ lit ".proto" <:+ f.name) →
      (scanFiles files options.inputFiles).get? k = options.inputFiles.get? k) ∧
    (inputDirectorySelector initialOptions directory
        [DirEntry.mk (lit "a.proto") false, DirEntry.mk (lit "b.proto") false,
          DirEntry.mk (lit "notes.txt") false]).inputFiles
      = [(lit "a.proto", true), (lit "b.proto", true)] := by
  have hH : ∀ k, (inputDirectorySelector options directory files).inputFiles.get? k
      = if (scanFiles files options.inputFiles).get? k = none then none else some true :=
    fun k => fileList_get? _ k
  refine ⟨?_, ?_, ?_, fun k hk => scanFiles_other files _ k hk, rfl⟩
  · intro f hf hd hs
    rw [hH, scanFiles_scanned files _ f hf hd hs]
    simp
  · intro k
    rw [hH]
    by_cases hsc : ∃ f ∈ files, f.name = k ∧ f.isDir = false ∧ lit ".proto" <:+ f.name
    · obtain ⟨f, hf, hn, hd, hs⟩ := hsc
      have h1 := scanFiles_scanned files options.inputFiles f hf hd hs
      rw [hn] at h1
      have h2 : ∃ f ∈ files, f.name = k ∧ f.isDir = false ∧ lit ".proto" <:+ f.name :=
        ⟨f, hf, hn, hd, hs⟩
      simp [h1, h2]
    · rw [scanFiles_other files _ k hsc]
      by_cases hold : options.inputFiles.get? k = none
      · simp [hold, hsc]
      · simp [hold]
  · intro k v hv
    rw [hH] at hv
    split_ifs at hv
    exact (Option.some.inj hv).symm

theorem inputDirectorySelector_scan_witness :
    (inputDirectorySelector
        (Options.mk (lit "/old") [(lit "old.proto", false)] (lit "/b") (lit "Golang"))
        (lit "/a")
        [DirEntry.mk (lit "a.proto") false, DirEntry.mk (lit "sub.proto") true,
          DirEntry.mk (lit "notes.txt") false]).inputFiles.get? (lit "a.proto") = some true :=
  (inputDirectorySelector_scan _ (lit "/a") _).1
    (DirEntry.mk (lit "a.proto") false) (by decide) rfl (by decide)

/-- C9 as stated fails: with `old.proto` registered and unchecked, selecting a
directory that holds only `a.proto` does not scan `old.proto` again, yet after
the handler its flag is `true`, not the `false` it had. -/
theorem inputDirectorySelector_scan_counterexample :
    (Options.mk (lit "/old") [(lit "old.proto", false)] (lit "") (lit "")).inputFiles.get?
        (lit "old.proto") = some false ∧
      (¬ ∃ f ∈ [DirEntry.mk (lit "a.proto") false], f.name = lit "old.proto") ∧
      (inputDirectorySelector
          (Options.mk (lit "/old") [(lit "old.proto", false)] (lit "") (lit ""))
          (lit "/a") [DirEntry.mk (lit "a.proto") false]).inputFiles
        = [(lit "old.proto", true), (lit "a.proto", true)] := by
  decide

/-! ### The "Generate" handler -/

/-- The file arguments of the command: the paths of the entries whose flag
is `true`, in visiting order. -/
theorem collectSelected_eq (options : Options) :
    collectSelected options
      = ((options.inputFiles.filter (fun e => e.2)).map (fun e => absPath options e.1),
          (options.inputFiles.filter (fun e => e.2)).length) := by
  have h : ∀ (m : GoMap) (acc : List GoString × Nat),
      m.foldl
          (fun acc entry =>
            if entry.2 then (acc.1 ++ [absPath options entry.1], acc.2 + 1) else acc)
          acc
        = (acc.1 ++ (m.filter (fun e => e.2)).map (fun e => absPath options e.1),
            acc.2 + (m.filter (fun e => e.2)).length) := by
    intro m
    induction m with
    | nil => intro acc; simp
    | cons e rest ih =>
      intro acc
      rw [List.foldl_cons, ih]
      by_cases he : e.2 = true
      · simp [he, List.filter_cons, Nat.add_assoc, Nat.add_comm 1]
      · simp [he, List.filter_cons]
  unfold collectSelected
  rw [h]
  simp

theorem selectionErrors_eq_nil (options : Options) :
    selectionErrors options = lit "" ↔
      options.inputDir ≠ lit "" ∧ options.inputFiles ≠ [] ∧ options.outputDir ≠ lit "" ∧
        options.outputLang ≠ lit "" := by
  have m1 : lit "[ERROR] Input directory not selected\n" ≠ [] := by decide
  have m2 : lit "[ERROR] Select at least 1 input file\n" ≠ [] := by decide
  have m3 : lit "[ERROR] Output directory not selected\n" ≠ [] := by decide
  have m4 : lit "[ERROR] Output language not selected" ≠ [] := by decide
  unfold selectionErrors
  simp only [lit_empty, List.length_eq_zero]
  split_ifs <;> simp [*]

theorem submitButton_eq (options : Options) :
    submitButton options
      = if selectionErrors options
            ++ (if (options.inputFiles.filter (fun e => e.2)) = [] then
                  lit "[ERROR] Select at least 1 input file\n" else lit "") ≠ lit "" then
          Outcome.rejected
            (selectionErrors options
              ++ (if (options.inputFiles.filter (fun e => e.2)) = [] then
                    lit "[ERROR] Select at least 1 input file\n" else lit ""))
        else
          Outcome.invoked
            ((options.inputFiles.filter (fun e => e.2)).map (fun e => absPath options e.1)
              ++ [lit "--proto_path", options.inputDir, getLanguageArg options,
                    options.outputDir]) := by
  unfold submitButton
  rw [collectSelected_eq]
  simp only [Nat.lt_one_iff, List.length_eq_zero]
  by_cases hsel : (options.inputFiles.filter (fun e => e.2)) = []
  · simp [hsel]
  · simp [hsel, lit_empty]

theorem filter_selected_eq_nil (m : GoMap) :
    m.filter (fun e => e.2) = [] ↔ ¬ ∃ e ∈ m, e.2 = true := by
  simp [List.filter_eq_nil_iff]

/-- C3: the handler runs `protoc` if and only if the input directory is
non-empty, some entry of the file map has the flag `true`, the output
directory is non-empty and the output language is non-empty; in every other
state it returns at line 206 with a non-empty error text, before the trailing
flags are appended and without running anything. -/
theorem submitButton_invokes_iff (options : Options) :
    ((∃ command, submitButton options = Outcome.invoked command) ↔
      (options.inputDir ≠ lit "" ∧ (∃ e ∈ options.inputFiles, e.2 = true) ∧
        options.outputDir ≠ lit "" ∧ options.outputLang ≠ lit "")) ∧
    (¬ (options.inputDir ≠ lit "" ∧ (∃ e ∈ options.inputFiles, e.2 = true) ∧
        options.outputDir ≠ lit "" ∧ options.outputLang ≠ lit "") →
      ∃ errorText, errorText ≠ lit "" ∧ submitButton options = Outcome.rejected errorText) := by
  have m2 : lit "[ERROR] Select at least 1 input file\n" ≠ [] := by decide
  have hkey : (selectionErrors options
            ++ (if (options.inputFiles.filter (fun e => e.2)) = [] then
                  lit "[ERROR] Select at least 1 input file\n" else lit "") = lit "") ↔
      (options.inputDir ≠ lit "" ∧ (∃ e ∈ options.inputFiles, e.2 = true) ∧
        options.outputDir ≠ lit "" ∧ options.outputLang ≠ lit "") := by
    rw [lit_empty, List.append_eq_nil, ← lit_empty, selectionErrors_eq_nil]
    by_cases hsel : (options.inputFiles.filter (fun e => e.2)) = []
    · have hno := (filter_selected_eq_nil _).mp hsel
      simp [hsel, m2, lit_empty, hno]
    · have hyes : ∃ e ∈ options.inputFiles, e.2 = true := by
        by_contra hno
        exact hsel ((filter_selected_eq_nil _).mpr hno)
      have hne : options.inputFiles ≠ [] := by
        obtain ⟨e, he, _⟩ := hyes
        exact List.ne_nil_of_mem he
      simp [hsel, lit_empty, hyes, hne]
  constructor
  · rw [← hkey, submitButton_eq]
    generalize (selectionErrors options
            ++ (if (options.inputFiles.filter (fun e => e.2)) = [] then
                  lit "[ERROR] Select at least 1 input file\n" else lit "")) = errorText
    by_cases h : errorText = lit ""
    · rw [if_neg (not_not.mpr h)]
      simp [h]
    · rw [if_pos h]
      simp [h]
  · intro hnot
    rw [← hkey] at hnot
    refine ⟨_, hnot, ?_⟩
    rw [submitButton_eq, if_pos hnot]

theorem submitButton_invokes_iff_witness :
    ∃ errorText, errorText ≠ lit "" ∧
      submitButton (Options.mk (lit "/a") [(lit "x.proto", false)] (lit "/b") (lit "Golang"))
        = Outcome.rejected errorText :=
  (submitButton_invokes_iff _).2 (by decide)


theorem absPath_injective (options : Options) (f g : GoString)
    (h : absPath options f = absPath options g) : f = g :=
  List.append_cancel_left h

theorem slash_mem_absPath (options : Options) (f : GoString) :
    (47 : UInt8) ∈ absPath options f := by
  have h : lit "/" = [47] := by decide
  simp [absPath, h]

theorem getLanguageArg_mem_flags (options : Options)
    (h : options.outputLang ∈ languageLabels) : getLanguageArg options ∈ languageFlags := by
  unfold getLanguageArg
  revert h
  generalize options.outputLang = l
  intro h
  simp only [languageLabels, List.mem_cons, List.mem_singleton, List.not_mem_nil,
    or_false] at h
  rcases h with h | h | h | h | h | h | h | h | h <;> subst h <;> decide

theorem mem_selected_paths (options : Options) (hwf : options.inputFiles.WF) (f : GoString) :
    absPath options f
        ∈ (options.inputFiles.filter (fun e => e.2)).map (fun e => absPath options e.1) ↔
      options.inputFiles.get? f = some true := by
  constructor
  · intro h
    obtain ⟨e, he, hp⟩ := List.mem_map.mp h
    obtain ⟨hmem, hflag⟩ := List.mem_filter.mp he
    have hf : e.1 = f := absPath_injective options _ _ hp
    obtain ⟨k, v⟩ := e
    simp only at hf hflag
    subst hf
    subst hflag
    exact GoMap.get?_of_mem _ hwf _ _ hmem
  · intro h
    have hmem := GoMap.mem_of_get? _ _ _ h
    exact List.mem_map.mpr ⟨(f, true), List.mem_filter.mpr ⟨hmem, rfl⟩, rfl⟩

theorem count_eq_one_of_nodup (a : GoString) :
    ∀ l : List GoString, l.Nodup → a ∈ l → l.count a = 1 := by
  intro l
  induction l with
  | nil => intro _ h; simp at h
  | cons b rest ih =>
    intro hnd hmem
    obtain ⟨hb, hrest⟩ := List.nodup_cons.mp hnd
    by_cases hab : a = b
    · subst hab
      have h0 : rest.count a = 0 := List.count_eq_zero.mpr hb
      simp [List.count_cons, h0]
    · have hin : a ∈ rest := by
        rcases List.mem_cons.mp hmem with h | h
        · exact absurd h hab
        · exact h
      have hba : ¬ b = a := fun h => hab h.symm
      simp [List.count_cons, hba, ih hrest hin]

theorem selected_paths_nodup (options : Options) (hwf : options.inputFiles.WF) :
    ((options.inputFiles.filter (fun e => e.2)).map (fun e => absPath options e.1)).Nodup := by
  have h1 : ((options.inputFiles.filter (fun e => e.2)).map Prod.fst).Nodup :=
    List.Nodup.sublist ((List.filter_sublist _).map Prod.fst) hwf
  have h2 : (options.inputFiles.filter (fun e => e.2)).map (fun e => absPath options e.1)
      = ((options.inputFiles.filter (fun e => e.2)).map Prod.fst).map (absPath options) := by
    rw [List.map_map]; rfl
  rw [h2]
  exact List.Nodup.map (fun a b hab => absPath_injective options a b hab) h1

/-- C1, as the code has it: in every state that passes validation (input directory non-empty,
some file flagged `true`, output directory non-empty, one of the nine labels
selected; keys of the map distinct, as in every Go map) the handler runs
`protoc` with the arguments `files ++ ["--proto_path", inputDir, flag,
outputDir]`, where `flag` is the flag mapped from the label and `files` holds
`inputDir + "/" + name` exactly once for each name flagged `true`, in the
order the map was visited, and nothing else: the path of a name flagged
`false` is not among `files`, and it occurs in the whole argument list only
if the output directory itself is that very string, so nowhere in the list
when the output directory differs from it. -/
theorem submitButton_command (options : Options) (hwf : options.inputFiles.WF)
    (hdir : options.inputDir ≠ lit "")
    (hsel : ∃ f, options.inputFiles.get? f = some true)
    (hout : options.outputDir ≠ lit "")
    (hlang : options.outputLang ∈ languageLabels) :
    ∃ files : List GoString,
      submitButton options
        = Outcome.invoked
            (files ++ [lit "--proto_path", options.inputDir, getLanguageArg options,
              options.outputDir]) ∧
      files = (options.inputFiles.filter (fun e => e.2)).map (fun e => absPath options e.1) ∧
      (∀ f, options.inputFiles.get? f = some true → files.count (absPath options f) = 1) ∧
      (∀ t ∈ files, ∃ f, options.inputFiles.get? f = some true ∧ t = absPath options f) ∧
      (∀ f, options.inputFiles.get? f = some false → absPath options f ∉ files) ∧
      getLanguageArg options ∈ languageFlags ∧
      (∀ f, options.inputFiles.get? f = some false →
        absPath options f
            ∈ files ++ [lit "--proto_path", options.inputDir, getLanguageArg options,
                options.outputDir] →
          options.outputDir = absPath options f) := by
  have hflag := getLanguageArg_mem_flags options hlang
  have hfalse : ∀ f, options.inputFiles.get? f = some false →
      absPath options f
        ∉ (options.inputFiles.filter (fun e => e.2)).map (fun e => absPath options e.1) := by
    intro f hf hmem
    rw [mem_selected_paths options hwf, hf] at hmem
    simp at hmem
  refine ⟨_, ?_, rfl, ?_, ?_, hfalse, hflag, ?_⟩
  · have hlangne : options.outputLang ≠ lit "" := by
      intro h
      rw [h] at hlang
      exact absurd hlang (by decide)
    obtain ⟨f, hf⟩ := hsel
    have hmem := GoMap.mem_of_get? _ _ _ hf
    have hne : options.inputFiles ≠ [] := List.ne_nil_of_mem hmem
    have hfil : options.inputFiles.filter (fun e => e.2) ≠ [] :=
      List.ne_nil_of_mem (List.mem_filter.mpr ⟨hmem, rfl⟩)
    have herr : selectionErrors options = lit "" :=
      (selectionErrors_eq_nil options).mpr ⟨hdir, hne, hout, hlangne⟩
    rw [submitButton_eq, herr, if_neg hfil, if_neg (by simp [lit_empty])]
  · intro f hf
    exact count_eq_one_of_nodup _ _ (selected_paths_nodup options hwf)
      ((mem_selected_paths options hwf f).mpr hf)
  · intro t ht
    obtain ⟨e, he, hp⟩ := List.mem_map.mp ht
    obtain ⟨hmem, hfl⟩ := List.mem_filter.mp he
    refine ⟨e.1, ?_, hp.symm⟩
    apply GoMap.get?_of_mem _ hwf
    obtain ⟨k, v⟩ := e
    simp only at hfl
    subst hfl
    exact hmem
  · intro f hf hmem
    have hslash := slash_mem_absPath options f
    rcases List.mem_append.mp hmem with h | h
    · exact absurd h (hfalse f hf)
    · simp only [List.mem_cons, List.mem_singleton, List.not_mem_nil, or_false] at h
      rcases h with h | h | h | h
      · rw [h] at hslash
        exact absurd hslash (by decide)
      · have hlen := congrArg List.length h
        simp only [absPath, List.length_append] at hlen
        have h1 : (lit "/").length = 1 := by decide
        omega
      · have hno : ∀ g ∈ languageFlags, (47 : UInt8) ∉ g := by decide
        rw [h] at hslash
        exact absurd hslash (hno _ hflag)
      · exact h.symm

theorem submitButton_command_witness :
    submitButton
        (Options.mk (lit "/a") [(lit "x.proto", true), (lit "y.proto", false)] (lit "/b")
          (lit "Golang"))
      = Outcome.invoked [lit "/a/x.proto", lit "--proto_path", lit "/a", lit "--go_out",
          lit "/b"] := by
  obtain ⟨files, hrun, hfiles, _⟩ :=
    submitButton_command
      (Options.mk (lit "/a") [(lit "x.proto", true), (lit "y.proto", false)] (lit "/b")
        (lit "Golang"))
      (by decide) (by decide) ⟨lit "x.proto", by decide⟩ (by decide) (by decide)
  rw [hrun, hfiles]
  decide


/-- C1 as stated fails: with input directory `/a`, `x.proto` checked,
`y.proto` unchecked, language `Golang` and the output directory `/a/y.proto`,
validation passes and the argument list ends in `/a/y.proto`, which is
`inputDir + "/" + name` for the unchecked `y.proto`. -/
theorem submitButton_command_counterexample :
    (Options.mk (lit "/a") [(lit "x.proto", true), (lit "y.proto", false)]
        (lit "/a/y.proto") (lit "Golang")).inputFiles.WF ∧
      lit "/a" ≠ lit "" ∧ lit "/a/y.proto" ≠ lit "" ∧ lit "Golang" ∈ languageLabels ∧
      GoMap.get? [(lit "x.proto", true), (lit "y.proto", false)] (lit "x.proto")
        = some true ∧
      GoMap.get? [(lit "x.proto", true), (lit "y.proto", false)] (lit "y.proto")
        = some false ∧
      submitButton
          (Options.mk (lit "/a") [(lit "x.proto", true), (lit "y.proto", false)]
            (lit "/a/y.proto") (lit "Golang"))
        = Outcome.invoked [lit "/a/x.proto", lit "--proto_path", lit "/a", lit "--go_out",
            lit "/a/y.proto"] ∧
      absPath
          (Options.mk (lit "/a") [(lit "x.proto", true), (lit "y.proto", false)]
            (lit "/a/y.proto") (lit "Golang"))
          (lit "y.proto")
        ∈ [lit "/a/x.proto", lit "--proto_path", lit "/a", lit "--go_out",
            lit "/a/y.proto"] := by
  decide

/-! ### The code at the inputs where it departs from the specification -/

/-- The loop never appends what is left of `s` when it stops: for non-empty
`s` the concatenation of `lines` is a proper initial part of `s`. -/
theorem resizeLines_drops_tail (s : GoString) (w : Int) (fuel : Nat) (hw : 1 ≤ w)
    (hfuel : wrapCount s w.toNat ≤ fuel) (hs : s ≠ []) :
    ∃ lines : List GoString, resizeLines fuel s w = Run.value lines ∧
      lines.flatten = s.take (wrapCount s w.toNat * w.toNat) ∧
      lines.flatten.length < s.length := by
  refine ⟨_, resizeLines_eq s w fuel hw hfuel, firstChunks_join _ _ _, ?_⟩
  rw [firstChunks_join, List.length_take]
  have := (wrapCount_bounds s w.toNat (by omega) hs).1
  omega

/-- C4 (the code at a failing input): for `s = "hello"` and `W = 2` the loop
leaves the chunks `"he"`, `"ll"`; joined without separator they give `"hell"`,
not `s`: the final byte was never appended. -/
theorem resizeLines_roundtrip_hello :
    resizeLines 2 (lit "hello") 2 = Run.value [lit "he", lit "ll"] ∧
      [lit "he", lit "ll"].flatten = lit "hell" ∧
      [lit "he", lit "ll"].flatten ≠ lit "hello" := by
  decide

/-- C5 (the code at a failing input): for the 9-byte text `"bad input"` and
`W = 600` the function returns the empty string, whatever the iteration
bound, and not the text; the label of line 229 then shows only the line break
and standard output. -/
theorem resizeStringWidth_short_text :
    (∀ fuel, resizeStringWidth fuel (lit "bad input") 600 = Run.value (lit "")) ∧
      lit "" ≠ lit "bad input" ∧
      (∀ fuel, resultLabel fuel (lit "bad input") (lit "ok") = Run.value (lit "\nok")) := by
  have hlines : ∀ fuel, resizeLines fuel (lit "bad input") 600 = Run.value [] := by
    intro fuel
    unfold resizeLines
    cases fuel <;> rw [resizeLoop, if_neg (by decide)]
  refine ⟨?_, by decide, ?_⟩
  · intro fuel
    simp only [resizeStringWidth, hlines]
    decide
  · intro fuel
    simp only [resultLabel, resizeStringWidth, hlines]
    decide

/-- C6 (the code at a failing input): for `s = "abcdef"` (`k = 3`, `W = 2`)
the loop leaves two chunks, `"ab"` and `"cd"`, not three, and the result is
`"ab\ncd"`: the third chunk `"ef"` is missing. -/
theorem resizeLines_exact_multiple :
    resizeLines 3 (lit "abcdef") 2 = Run.value [lit "ab", lit "cd"] ∧
      [lit "ab", lit "cd"].length = 2 ∧
      resizeStringWidth 3 (lit "abcdef") 2 = Run.value (lit "ab\ncd") := by
  decide

set_option maxRecDepth 8000 in
/-- C8 (the code at a failing input): in the initial state the error text
has a line made of two messages, `"[ERROR] Output language not
selected[ERROR] Select at least 1 input file"`, which is none of the four
messages: line 185 appends its message without a line end and line 200
appends after it. -/
theorem submitButton_initial_errorText :
    submitButton initialOptions
        = Outcome.rejected
            (lit ("[ERROR] Input directory not selected\n"
              ++ "[ERROR] Select at least 1 input file\n"
              ++ "[ERROR] Output directory not selected\n"
              ++ "[ERROR] Output language not selected[ERROR] Select at least 1 input file\n")) ∧
      textLines
          (lit ("[ERROR] Input directory not selected\n"
            ++ "[ERROR] Select at least 1 input file\n"
            ++ "[ERROR] Output directory not selected\n"
            ++ "[ERROR] Output language not selected[ERROR] Select at least 1 input file\n"))
        = [lit "[ERROR] Input directory not selected",
            lit "[ERROR] Select at least 1 input file",
            lit "[ERROR] Output directory not selected",
            lit "[ERROR] Output language not selected[ERROR] Select at least 1 input file",
            lit ""] ∧
      lit "[ERROR] Output language not selected[ERROR] Select at least 1 input file"
        ∉ errorMessages := by
  decide

end ProtocGui
